import Mathlib

/-!
Verification of the 2x2 game-theory repository (ne.py and fict_play.py).

The embedding translates the Python source into Lean over exact rationals:
a game is the ordered 4-tuple of cells [(Top,Left), (Top,Right),
(Bottom,Left), (Bottom,Right)], each cell a pair (u_rowena, u_colin).
`np.linalg.solve` on a 1x1 system becomes `solve1` (failure when the
coefficient is 0, mirroring the LinAlgError caught by the bare `except`).
Python exceptions inside the `try` blocks of `mixed_NE` (including the
IndexError produced by the operator-precedence slip `i = p+1%2`, which
parses as `i = p + (1 % 2) = p + 1`) are modelled by the same
"fall through with None" behaviour the bare `except:` clauses produce.
Python truthiness of floats (`if not p:` is taken both for `None` and for
`0.0`) is modelled by `pyFalsy`.
-/

namespace GameTheory

/-- A well-formed 4-cell game: the cells game[0], game[1], game[2], game[3]
of the Python list, in the fixed order TL, TR, BL, BR; each cell is the
pair (u_rowena, u_colin). -/
structure Game4 where
  tl : ℚ × ℚ
  tr : ℚ × ℚ
  bl : ℚ × ℚ
  br : ℚ × ℚ
deriving DecidableEq

/-- Rowena's utility matrix, `u(game)[0]` in ne.py / fict_play.py:
[[u(T,L), u(T,R)], [u(B,L), u(B,R)]]. -/
def u1 (g : Game4) (i j : Fin 2) : ℚ :=
  if i = 0 then (if j = 0 then g.tl.1 else g.tr.1)
  else (if j = 0 then g.bl.1 else g.br.1)

/-- Colin's utility matrix, `u(game)[1]` in ne.py / fict_play.py. -/
def u2 (g : Game4) (i j : Fin 2) : ℚ :=
  if i = 0 then (if j = 0 then g.tl.2 else g.tr.2)
  else (if j = 0 then g.bl.2 else g.br.2)

/-- The helper `u(game)` of ne.py applied to a raw Python list: it reads
game[0], game[1], game[2] and game[3]; a missing index raises IndexError
(modelled as `none`); any further elements are never read. -/
def uRaw (g : List (ℚ × ℚ)) : Option Game4 :=
  match g[0]?, g[1]?, g[2]?, g[3]? with
  | some c0, some c1, some c2, some c3 => some ⟨c0, c1, c2, c3⟩
  | _, _, _, _ => none

/-- The two player tags "R" and "C" accepted by dom_strat / best_response. -/
inductive Player where
  | R
  | C
deriving DecidableEq

/-- `dom_strat(game, p)` of ne.py: weakly dominant strategy of player p,
1 = always Top/Left, 2 = always Bottom/Right, None when neither weak
dominance condition holds.  The First condition is tested before Second. -/
def dom_strat (g : Game4) (p : Player) : Option ℕ :=
  match p with
  | .R =>
    if u1 g 0 0 ≥ u1 g 1 0 ∧ u1 g 0 1 ≥ u1 g 1 1 then some 1
    else if u1 g 1 0 ≥ u1 g 0 0 ∧ u1 g 1 1 ≥ u1 g 0 1 then some 2
    else none
  | .C =>
    if u2 g 0 0 ≥ u2 g 0 1 ∧ u2 g 1 0 ≥ u2 g 1 1 then some 1
    else if u2 g 0 1 ≥ u2 g 0 0 ∧ u2 g 1 1 ≥ u2 g 1 0 then some 2
    else none

/-- `pure_NE(game)` of ne.py: the four cells are tested in the source's
order (1,1), (1,0), (0,0), (0,1); encoding 1 = first action (Top/Left),
0 = second action (Bottom/Right). -/
def pure_NE (g : Game4) : List (ℕ × ℕ) :=
  (if u1 g 0 0 ≥ u1 g 1 0 ∧ u2 g 0 0 ≥ u2 g 0 1 then [((1:ℕ), (1:ℕ))] else []) ++
  (if u1 g 0 1 ≥ u1 g 1 1 ∧ u2 g 0 1 ≥ u2 g 0 0 then [(1, 0)] else []) ++
  (if u1 g 1 1 ≥ u1 g 0 1 ∧ u2 g 1 1 ≥ u2 g 1 0 then [(0, 0)] else []) ++
  (if u1 g 1 0 ≥ u1 g 0 0 ∧ u2 g 1 0 ≥ u2 g 1 1 then [(0, 1)] else [])

/-- The values appearing in the tuples returned by `mixed_NE`:
a number, the string ``[0,1]``, the strings `str(x)+'+eps'` and
`str(x)+'-eps'`, and Python `None` (which reaches a returned tuple in the
q-fallback branch when p was unsolvable). -/
inductive MixVal where
  | num (x : ℚ)
  | interval
  | plusEps (x : ℚ)
  | minusEps (x : ℚ)
  | pynone
deriving DecidableEq

/-- `np.linalg.solve` on the 1x1 system a*x = b: LinAlgError (here `none`)
when a = 0, otherwise the unique solution b / a. -/
def solve1 (a b : ℚ) : Option ℚ := if a = 0 then none else some (b / a)

/-- Coefficient of Colin's indifference system solved for p in mixed_NE:
(u2[0,0]-u2[1,0]) - (u2[0,1]-u2[1,1]). -/
def a2c (g : Game4) : ℚ := (u2 g 0 0 - u2 g 1 0) - (u2 g 0 1 - u2 g 1 1)

/-- Right-hand side of that system: -u2[1,0] + u2[1,1]. -/
def b2c (g : Game4) : ℚ := -(u2 g 1 0) + u2 g 1 1

/-- Coefficient of Rowena's indifference system solved for q in mixed_NE:
(u1[0,0]-u1[0,1]) - (u1[1,0]-u1[1,1]). -/
def a1c (g : Game4) : ℚ := (u1 g 0 0 - u1 g 0 1) - (u1 g 1 0 - u1 g 1 1)

/-- Right-hand side of that system: -u1[0,1] + u1[1,1]. -/
def b1c (g : Game4) : ℚ := -(u1 g 0 1) + u1 g 1 1

/-- The first `try` block of mixed_NE (lines 122-142 of ne.py).  Result is
either an early `return` of the whole function (`Sum.inl`) or the value the
variable p holds afterwards (`Sum.inr`).  In the fallback, `p = s_c % 2`
and `i = p+1%2` which Python parses as `i = p + 1`: for a dominant First
strategy (s_c = 1) this gives i = 2 and `u1[0,i]` raises IndexError, caught
by the bare `except:` that sets p = None; for s_c = 2 it gives i = 1, so
Rowena's utilities are compared in column 1 (Right). -/
def pBlock (g : Game4) : List (MixVal × MixVal) ⊕ Option ℚ :=
  match solve1 (a2c g) (b2c g) with
  | none => Sum.inr none
  | some p =>
    if p ≤ 1 ∧ 0 ≤ p then Sum.inr (some p)
    else
      match dom_strat g Player.C with
      | some s =>
        if s % 2 = 1 then Sum.inr none
        else
          if u1 g 0 1 > u1 g 1 1 then Sum.inl [(MixVal.num 1, MixVal.num (s % 2 : ℕ))]
          else if u1 g 0 1 < u1 g 1 1 then Sum.inl [(MixVal.num 0, MixVal.num (s % 2 : ℕ))]
          else Sum.inl [(MixVal.interval, MixVal.num (s % 2 : ℕ))]
      | none => Sum.inr none

/-- A Python value that is either None or a float, as it appears inside a
returned tuple. -/
def optVal : Option ℚ → MixVal
  | none => MixVal.pynone
  | some x => MixVal.num x

/-- The second `try` block of mixed_NE (lines 143-162 of ne.py), with the
same operator-precedence behaviour: s_r = 1 gives i = 2 hence IndexError
hence q = None; s_r = 2 gives i = 1 and the comparisons `u2[0,1] > u2[1,1]`
of the source.  Its early returns embed the first block's p (possibly
None) as the second tuple component, exactly as the source does. -/
def qBlock (g : Game4) (pv : Option ℚ) : List (MixVal × MixVal) ⊕ Option ℚ :=
  match solve1 (a1c g) (b1c g) with
  | none => Sum.inr none
  | some q =>
    if q ≤ 1 ∧ 0 ≤ q then Sum.inr (some q)
    else
      match dom_strat g Player.R with
      | some s =>
        if s % 2 = 1 then Sum.inr none
        else
          if u2 g 0 1 > u2 g 1 1 then Sum.inl [(MixVal.num 1, optVal pv)]
          else if u2 g 0 1 < u2 g 1 1 then Sum.inl [(MixVal.num 0, optVal pv)]
          else Sum.inl [(MixVal.interval, optVal pv)]
      | none => Sum.inr none

/-- Python truthiness test `not v` for a variable holding None or a float:
true for None and for 0.0. -/
def pyFalsy : Option ℚ → Bool
  | none => true
  | some x => x == 0

/-- `mixed_NE(game)` of ne.py, assembled from the two try blocks and the
combination logic of lines 163-215.  Note the source's `if not p:` /
`elif not q:` use Python truthiness, so a solved value of exactly 0 is
treated like an unsolvable one. -/
def mixed_NE (g : Game4) : List (MixVal × MixVal) :=
  match pBlock g with
  | Sum.inl r => r
  | Sum.inr pv =>
    match qBlock g pv with
    | Sum.inl r => r
    | Sum.inr qv =>
      if pyFalsy pv then
        if pyFalsy qv then
          match dom_strat g Player.R, dom_strat g Player.C with
          | some sr, some sc => [(MixVal.num (sr % 2 : ℕ), MixVal.num (sc % 2 : ℕ))]
          | some sr, none => [(MixVal.num (sr % 2 : ℕ), MixVal.interval)]
          | none, some sc => [(MixVal.interval, MixVal.num (sc % 2 : ℕ))]
          | none, none => [(MixVal.interval, MixVal.interval)]
        else
          ([(MixVal.interval, MixVal.num (qv.getD 0))] ++
            (if qv.getD 0 < 1 then
              [if u1 g 0 0 > u1 g 1 0 then (MixVal.num 1, MixVal.plusEps (qv.getD 0))
               else (MixVal.num 0, MixVal.plusEps (qv.getD 0))]
             else []) ++
            [if u1 g 0 1 > u1 g 1 1 then (MixVal.num 1, MixVal.minusEps (qv.getD 0))
             else (MixVal.num 0, MixVal.minusEps (qv.getD 0))])
      else if pyFalsy qv then
        ([(MixVal.num (pv.getD 0), MixVal.interval)] ++
          (if pv.getD 0 < 1 then
            [if u2 g 0 0 > u2 g 0 1 then (MixVal.plusEps (pv.getD 0), MixVal.num 1)
             else (MixVal.plusEps (pv.getD 0), MixVal.num 0)]
           else []) ++
          [if u1 g 1 0 > u1 g 1 1 then (MixVal.minusEps (pv.getD 0), MixVal.num 1)
           else (MixVal.minusEps (pv.getD 0), MixVal.num 0)])
      else [(MixVal.num (pv.getD 0), MixVal.num (qv.getD 0))]

/-- Python 3's built-in `round` (banker's rounding, ties to even), on exact
rationals; used on the opponent's empirical strategy in best_response. -/
def pyRound (x : ℚ) : ℤ :=
  if x - ⌊x⌋ < 1/2 then ⌊x⌋
  else if (1 : ℚ)/2 < x - ⌊x⌋ then ⌊x⌋ + 1
  else if ⌊x⌋ % 2 = 0 then ⌊x⌋ else ⌊x⌋ + 1

/-- The column/row index `(round(s)+1)%2` used by best_response to collapse
the opponent's mixed strategy to a pure action. -/
def brIdx (s : ℚ) : Fin 2 := if (pyRound s + 1) % 2 = 0 then 0 else 1

/-- `np.argmax` on the two-element vector [a, b]: the first index carrying
the maximum, so 0 whenever a ≥ b. -/
def argmax2 (a b : ℚ) : ℕ := if b > a then 1 else 0

/-- `best_response(game, player, s)` of fict_play.py.  For player R the
utilities `ut[0].T[(round(s)+1)%2]` are Rowena's column `brIdx s`; for
player C the utilities `ut[1][(round(s)+1)%2]` are Colin's row `brIdx s`.
The result is `(argmax+1)%2`: 1 encodes the first action (H/Top/Left),
0 the second. -/
def best_response (g : Game4) (p : Player) (s : ℚ) : ℕ :=
  match p with
  | .R => (argmax2 (u1 g 0 (brIdx s)) (u1 g 1 (brIdx s)) + 1) % 2
  | .C => (argmax2 (u2 g (brIdx s) 0) (u2 g (brIdx s) 1) + 1) % 2

/-- `emp_strat(H)` of fict_play.py: sum(H) / len(H). -/
def emp_strat (H : List ℚ) : ℚ := H.sum / (H.length : ℚ)

/-- The loop state of `fict_play`: both action histories, both trajectory
lists of empirical strategies, and the round counter i. -/
structure FPState where
  hR : List ℚ
  hC : List ℚ
  sR : List ℚ
  sC : List ℚ
  i : ℕ
deriving DecidableEq

/-- The convergence tolerance `eps = 1e-4` of fict_play.py. -/
def fpEps : ℚ := 1/10000

/-- One-loop-at-a-time fuelled embedding of the `while not converged` loop
of `fict_play` (lines 163-181 of fict_play.py).  Each iteration computes
both empirical strategies, both best responses, tests the convergence
condition (`i > 0` and both trajectories moved by less than eps since the
previous round, read off `strats[-1]` before the new values are appended),
and either returns the trajectories extended by the current values (the
source appends before the `while` condition re-test) or recurses on the
extended state.  `none` means the fuel ran out before convergence; the
source's loop is unbounded. -/
def fpLoop (g : Game4) : ℕ → FPState → Option (List ℚ × List ℚ)
  | 0, _ => none
  | n + 1, st =>
    if st.i > 0 ∧ |st.sR.getLastD 0 - emp_strat st.hR| < fpEps ∧
        |st.sC.getLastD 0 - emp_strat st.hC| < fpEps then
      some (st.sR ++ [emp_strat st.hR], st.sC ++ [emp_strat st.hC])
    else
      fpLoop g n ⟨st.hR ++ [(best_response g Player.R (emp_strat st.hC) : ℚ)],
        st.hC ++ [(best_response g Player.C (emp_strat st.hR) : ℚ)],
        st.sR ++ [emp_strat st.hR], st.sC ++ [emp_strat st.hC], st.i + 1⟩

/-- The initial state of fict_play: a = (1,1), all four lists seeded with
that round-0 action, i = 0. -/
def fpInit : FPState := ⟨[1], [1], [1], [1], 0⟩

/-- `fict_play(zs_game)` of fict_play.py, with explicit fuel standing for
the number of loop iterations allowed. -/
def fict_play (g : Game4) (fuel : ℕ) : Option (List ℚ × List ℚ) :=
  fpLoop g fuel fpInit

/-! Concrete games used to settle the claims. -/

/-- The fully degenerate game [(2,2),(2,2),(2,2),(2,2)] of the spec. -/
def degGame : Game4 := ⟨(2, 2), (2, 2), (2, 2), (2, 2)⟩

/-- The matching-pennies game [(1,-1),(-1,1),(-1,1),(1,-1)]. -/
def mpGame : Game4 := ⟨(1, -1), (-1, 1), (-1, 1), (1, -1)⟩

/-- The prisoners-dilemma game [(-10,-10),(-25,0),(0,-25),(-20,-20)] from
the source's main function. -/
def pdGame : Game4 := ⟨(-10, -10), (-25, 0), (0, -25), (-20, -20)⟩

/-- A game whose Colin indifference equation solves to p = 0 exactly while
the Rowena equation solves to q = 1/2: [(1,1),(0,0),(0,0),(1,0)]. -/
def gP0 : Game4 := ⟨(1, 1), (0, 0), (0, 0), (1, 0)⟩

/-- A game whose Colin indifference solution is p = -2 (outside [0,1]) and
where Colin has weakly dominant strategy First: [(1,3),(0,0),(0,2),(1,0)]. -/
def gDomFirst : Game4 := ⟨(1, 3), (0, 0), (0, 2), (1, 0)⟩

/-- The all-zero game, a tie in every comparison. -/
def zeroGame : Game4 := ⟨(0, 0), (0, 0), (0, 0), (0, 0)⟩

/-- A game in which the first action strictly dominates for both players,
so fictitious play converges immediately: [(1,1),(1,0),(0,1),(0,0)]. -/
def gConv : Game4 := ⟨(1, 1), (1, 0), (0, 1), (0, 0)⟩

/-- A raw 5-cell input list (one cell too many). -/
def fiveCells : List (ℚ × ℚ) := [(0, 0), (0, 0), (0, 0), (0, 0), (0, 0)]

/-- The matrix row index encoded by a pure_NE cell component: the source
encodes 1 = first action (matrix index 0) and 0 = second (index 1). -/
def encA (n : ℕ) : Fin 2 := if n = 1 then 0 else 1

/-- The other action. -/
def flip2 (i : Fin 2) : Fin 2 := if i = 0 then 1 else 0

/-- Weak best-reply condition of a cell (r,c) for both players: Rowena
cannot weakly improve by switching rows at that column, Colin cannot by
switching columns at that row. -/
def cellCond (g : Game4) (rc : ℕ × ℕ) : Prop :=
  u1 g (encA rc.1) (encA rc.2) ≥ u1 g (flip2 (encA rc.1)) (encA rc.2) ∧
  u2 g (encA rc.1) (encA rc.2) ≥ u2 g (encA rc.1) (flip2 (encA rc.2))

/-- Colin's expected-utility difference between Left and Right when Rowena
plays Top with probability p. -/
def colDiff (g : Game4) (p : ℚ) : ℚ :=
  (p * u2 g 0 0 + (1 - p) * u2 g 1 0) - (p * u2 g 0 1 + (1 - p) * u2 g 1 1)

/-- Rowena's expected-utility difference between Top and Bottom when Colin
plays Left with probability q. -/
def rowDiff (g : Game4) (q : ℚ) : ℚ :=
  (q * u1 g 0 0 + (1 - q) * u1 g 0 1) - (q * u1 g 1 0 + (1 - q) * u1 g 1 1)

/-- The two utility values best_response compares for a given player and
opponent strategy s are equal (a tie in the collapsed 2-value lookup). -/
def brTie (g : Game4) (p : Player) (s : ℚ) : Prop :=
  match p with
  | .R => u1 g 0 (brIdx s) = u1 g 1 (brIdx s)
  | .C => u2 g (brIdx s) 0 = u2 g (brIdx s) 1

/-- All four utilities of one player are equal. -/
def allEqual (g : Game4) (p : Player) : Prop :=
  match p with
  | .R => u1 g 0 0 = u1 g 1 0 ∧ u1 g 0 1 = u1 g 1 1 ∧ u1 g 0 0 = u1 g 0 1
  | .C => u2 g 0 0 = u2 g 0 1 ∧ u2 g 1 0 = u2 g 1 1 ∧ u2 g 0 0 = u2 g 1 0

end GameTheory

namespace GameTheory

/-- C1 counterexample: on the game [(1,1),(0,0),(0,0),(1,0)] both
indifference equations have unique solutions in [0,1] (p = 0 and q = 1/2),
yet mixed_NE does not return the single pair (0, 1/2): Python's `if not p:`
treats the solved p = 0.0 as falsy, so the solver takes the
"Rowena unsolvable" branch and returns three boundary equilibria. -/
theorem mixedNE_zero_solution_not_single_pair :
    a2c gP0 ≠ 0 ∧ b2c gP0 / a2c gP0 = 0 ∧
    a1c gP0 ≠ 0 ∧ b1c gP0 / a1c gP0 = 1/2 ∧
    mixed_NE gP0 ≠ [(MixVal.num 0, MixVal.num (1/2))] ∧
    mixed_NE gP0 = [(MixVal.interval, MixVal.num (1/2)),
      (MixVal.num 1, MixVal.plusEps (1/2)), (MixVal.num 0, MixVal.minusEps (1/2))] := by
  refine ⟨by norm_num [a2c, u2, gP0], by norm_num [b2c, a2c, u2, gP0],
    by norm_num [a1c, u1, gP0], by norm_num [b1c, a1c, u1, gP0], ?_, ?_⟩ <;>
    norm_num [mixed_NE, pBlock, qBlock, solve1, a2c, b2c, a1c, b1c, u1, u2, dom_strat, pyFalsy, gP0]
  exact fun h => MixVal.noConfusion h

/-- C2 counterexample: on the fully degenerate game the mixed solver does
not return [(Interval, Interval)]: both players have a weakly dominant
strategy (First, by the tie-break), so the dominance fallback returns the
single pure pair (1,1). -/
theorem mixedNE_degenerate_not_interval_pair :
    mixed_NE degGame ≠ [(MixVal.interval, MixVal.interval)] := by
  norm_num [mixed_NE, pBlock, qBlock, solve1, a2c, b2c, a1c, b1c, u1, u2, dom_strat, pyFalsy,
    degGame]
  exact fun h => MixVal.noConfusion h

/-- C2 (corrected): on the fully degenerate game [(2,2),(2,2),(2,2),(2,2)]
the mixed solver returns the single pure pair (1,1) — dom_strat reports
First for both players — while the pure finder returns all 4 cells. -/
theorem degenerate_game_solver_results :
    mixed_NE degGame = [(MixVal.num 1, MixVal.num 1)] ∧
    pure_NE degGame = [(1, 1), (1, 0), (0, 0), (0, 1)] := by
  norm_num [mixed_NE, pBlock, qBlock, solve1, a2c, b2c, a1c, b1c, u1, u2, dom_strat, pyFalsy,
    pure_NE, degGame]

/-- C3 counterexample: in the all-zero game with opponent strategy s = 0
the two compared utilities are tied, yet best_response returns 1 (the
FIRST action), not 0: np.argmax returns the first maximal index 0 and
`(0+1)%2 = 1`. -/
theorem best_response_tie_not_second :
    u1 zeroGame 0 (brIdx 0) = u1 zeroGame 1 (brIdx 0) ∧
    best_response zeroGame Player.R 0 ≠ 0 := by
  norm_num [u1, zeroGame, best_response, argmax2, brIdx, pyRound]

/-- C3 (amended): whenever the two compared expected-utility values are
equal, best_response returns the player's FIRST action, encoded 1. -/
theorem best_response_tie_returns_first (g : Game4) (p : Player) (s : ℚ)
    (h : brTie g p s) : best_response g p s = 1 := by
  cases p <;> simp only [brTie] at h <;>
    simp [best_response, argmax2, h]

/-- C3 witness: the amended theorem applied to the all-zero game. -/
theorem best_response_tie_returns_first_app :
    best_response zeroGame Player.R 0 = 1 :=
  best_response_tie_returns_first zeroGame Player.R 0
    (by norm_num [brTie, brIdx, pyRound, u1, zeroGame])

/-- C4: on the game [(1,3),(0,0),(0,2),(1,0)] Colin's indifference solution
is p = -2 (outside [0,1]) and Colin has weakly dominant strategy First, so
by the spec the solver should fix p = 1 and return Rowena's best reply on
the Left column — [(1, 1)] here.  Instead the source's `i = p+1%2` (which
parses as `i = p + 1 = 2`) makes `u1[0,i]` raise IndexError; the bare
`except:` resets p to None and the solver returns the three-equilibria
"Rowena unsolvable" structure built from q = 1/2. -/
theorem mixedNE_dominant_first_fallback_crash_path :
    a2c gDomFirst ≠ 0 ∧
    ¬(b2c gDomFirst / a2c gDomFirst ≤ 1 ∧ 0 ≤ b2c gDomFirst / a2c gDomFirst) ∧
    dom_strat gDomFirst Player.C = some 1 ∧
    u1 gDomFirst 0 0 > u1 gDomFirst 1 0 ∧
    mixed_NE gDomFirst = [(MixVal.interval, MixVal.num (1/2)),
      (MixVal.num 1, MixVal.plusEps (1/2)), (MixVal.num 0, MixVal.minusEps (1/2))] := by
  norm_num [mixed_NE, pBlock, qBlock, solve1, a2c, b2c, a1c, b1c, u1, u2, dom_strat, pyFalsy,
    gDomFirst]

/-- C5 counterexample: a 5-cell input does not fail — the helper u reads
only the first four cells, so every lookup succeeds and the extra cell is
silently ignored; no InvalidGame error exists anywhere in the source. -/
theorem uRaw_five_cells_succeeds :
    (uRaw fiveCells).isSome = true ∧ fiveCells.length ≠ 4 := by
  norm_num [uRaw, fiveCells]

/-- C5 (amended): reading a raw game succeeds exactly when it has AT LEAST
4 cells; with fewer than 4 the first utility lookup raises an index error
(and this happens at first use, not at construction — there is no
construction-time validation). -/
theorem uRaw_isSome_iff_four_le_length (g : List (ℚ × ℚ)) :
    (uRaw g).isSome ↔ 4 ≤ g.length := by
  match g with
  | [] => simp [uRaw]
  | [a] => simp [uRaw]
  | [a, b] => simp [uRaw]
  | [a, b, c] => simp [uRaw]
  | a :: b :: c :: d :: t => simp [uRaw]

/-- C7: if all four of a player's utilities are equal then both weak
dominance conditions hold, and because dom_strat tests the First condition
before the Second one it reports exactly `some 1` (DominantAction First). -/
theorem dom_strat_all_equal_first (g : Game4) (p : Player)
    (h : allEqual g p) : dom_strat g p = some 1 := by
  cases p <;> simp only [allEqual] at h <;> obtain ⟨h1, h2, h3⟩ := h <;>
    · have c1 := ge_of_eq h1
      have c2 := ge_of_eq h2
      simp [dom_strat, c1, c2]

/-- C7 witness: the degenerate all-equal game reports First for Rowena. -/
theorem dom_strat_all_equal_first_app :
    dom_strat degGame Player.R = some 1 :=
  dom_strat_all_equal_first degGame Player.R (by norm_num [allEqual, u1, degGame])

/-- C1 (amended): when both indifference equations have a unique solution
in [0,1] and BOTH solutions are nonzero, mixed_NE returns exactly the one
pair (p, q).  (When p or q is exactly 0 the source's Python truthiness
check `if not p:` treats the solved value like an unsolvable one and a
different branch runs, as the counterexample shows.) -/
theorem mixedNE_interior_solutions_single_pair (g : Game4)
    (ha2 : a2c g ≠ 0) (ha1 : a1c g ≠ 0)
    (hp0 : 0 < b2c g / a2c g) (hp1 : b2c g / a2c g ≤ 1)
    (hq0 : 0 < b1c g / a1c g) (hq1 : b1c g / a1c g ≤ 1) :
    mixed_NE g = [(MixVal.num (b2c g / a2c g), MixVal.num (b1c g / a1c g))] := by
  have hpb : pBlock g = Sum.inr (some (b2c g / a2c g)) := by
    simp only [pBlock, solve1, if_neg ha2]
    simp [hp1, hp0.le]
  have hqb : qBlock g (some (b2c g / a2c g)) = Sum.inr (some (b1c g / a1c g)) := by
    simp only [qBlock, solve1, if_neg ha1]
    simp [hq1, hq0.le]
  simp [mixed_NE, hpb, hqb, pyFalsy, hp0.ne', hq0.ne']

/-- C1 witness: matching pennies, where p = q = 1/2. -/
theorem mixedNE_interior_solutions_single_pair_app : mixed_NE mpGame =
    [(MixVal.num (b2c mpGame / a2c mpGame), MixVal.num (b1c mpGame / a1c mpGame))] :=
  mixedNE_interior_solutions_single_pair mpGame
    (by norm_num [a2c, u2, mpGame]) (by norm_num [a1c, u1, mpGame])
    (by norm_num [b2c, a2c, u2, mpGame]) (by norm_num [b2c, a2c, u2, mpGame])
    (by norm_num [b1c, a1c, u1, mpGame]) (by norm_num [b1c, a1c, u1, mpGame])

/-- Membership in a conditional singleton list gives the condition and the
equality with the singleton's element. -/
theorem mem_ite_singleton {α : Type} {rc x : α} {c : Prop} [Decidable c]
    (h : rc ∈ if c then [x] else ([] : List α)) : c ∧ rc = x := by
  split at h
  · exact ⟨by assumption, List.mem_singleton.mp h⟩
  · exact absurd h (List.not_mem_nil rc)

/-- Exactly which cells pure_NE can emit, with the source's membership
condition for each. -/
theorem pure_NE_mem_cases (g : Game4) (rc : ℕ × ℕ) (h : rc ∈ pure_NE g) :
    (rc = (1, 1) ∧ u1 g 0 0 ≥ u1 g 1 0 ∧ u2 g 0 0 ≥ u2 g 0 1) ∨
    (rc = (1, 0) ∧ u1 g 0 1 ≥ u1 g 1 1 ∧ u2 g 0 1 ≥ u2 g 0 0) ∨
    (rc = (0, 0) ∧ u1 g 1 1 ≥ u1 g 0 1 ∧ u2 g 1 1 ≥ u2 g 1 0) ∨
    (rc = (0, 1) ∧ u1 g 1 0 ≥ u1 g 0 0 ∧ u2 g 1 0 ≥ u2 g 1 1) := by
  unfold pure_NE at h
  rw [List.mem_append, List.mem_append, List.mem_append] at h
  rcases h with ((h | h) | h) | h
  · obtain ⟨hc, he⟩ := mem_ite_singleton h
    exact Or.inl ⟨he, hc.1, hc.2⟩
  · obtain ⟨hc, he⟩ := mem_ite_singleton h
    exact Or.inr (Or.inl ⟨he, hc.1, hc.2⟩)
  · obtain ⟨hc, he⟩ := mem_ite_singleton h
    exact Or.inr (Or.inr (Or.inl ⟨he, hc.1, hc.2⟩))
  · obtain ⟨hc, he⟩ := mem_ite_singleton h
    exact Or.inr (Or.inr (Or.inr ⟨he, hc.1, hc.2⟩))

/-- C6: pure_NE returns between 0 and 4 distinct cells and every returned
cell satisfies the weak best-reply condition for both players: neither
player can weakly improve by a unilateral switch. -/
theorem pure_NE_weak_best_reply (g : Game4) :
    (pure_NE g).length ≤ 4 ∧ (pure_NE g).Nodup ∧ ∀ rc ∈ pure_NE g, cellCond g rc := by
  refine ⟨?_, ?_, ?_⟩
  · unfold pure_NE
    split_ifs <;> simp
  · unfold pure_NE
    split_ifs <;> decide
  · intro rc h
    rcases pure_NE_mem_cases g rc h with ⟨he, h1, h2⟩ | ⟨he, h1, h2⟩ | ⟨he, h1, h2⟩ |
      ⟨he, h1, h2⟩ <;> subst he <;> exact ⟨h1, h2⟩

/-- C6 witness: (0,0), the unique pure equilibrium of the prisoners
dilemma, satisfies the weak best-reply condition. -/
theorem pure_NE_weak_best_reply_app : cellCond pdGame (0, 0) :=
  (pure_NE_weak_best_reply pdGame).2.2 (0, 0) (by norm_num [pure_NE, u1, u2, pdGame])

/-- dom_strat returns only 1 or 2 when it returns at all. -/
theorem dom_strat_cases (g : Game4) (p : Player) (s : ℕ)
    (h : dom_strat g p = some s) : s = 1 ∨ s = 2 := by
  cases p <;> unfold dom_strat at h <;> split_ifs at h <;>
    injection h with h <;> omega

/-- Any early return of the first try block is a singleton whose second
component is the number 0 (the only dominance value that survives the
IndexError is s_c = 2, i.e. p = 0). -/
theorem pBlock_inl_shape (g : Game4) (r : List (MixVal × MixVal))
    (h : pBlock g = Sum.inl r) : ∃ x, r = [(x, MixVal.num 0)] := by
  unfold pBlock at h
  split at h
  · exact Sum.noConfusion h
  · split at h
    · exact Sum.noConfusion h
    · split at h
      · rename_i s heq
        split at h
        · exact Sum.noConfusion h
        · rename_i hmod
          have h0 : s % 2 = 0 := by omega
          split at h
          · injection h with h'
            exact ⟨MixVal.num 1, by rw [← h', h0]; norm_num⟩
          · split at h
            · injection h with h'
              exact ⟨MixVal.num 0, by rw [← h', h0]; norm_num⟩
            · injection h with h'
              exact ⟨MixVal.interval, by rw [← h', h0]; norm_num⟩
      · exact Sum.noConfusion h

/-- Any early return of the second try block is a singleton whose first
component is the number 1, the number 0 or the interval marker. -/
theorem qBlock_inl_shape (g : Game4) (pv : Option ℚ) (r : List (MixVal × MixVal))
    (h : qBlock g pv = Sum.inl r) :
    ∃ y, r = [(MixVal.num 1, y)] ∨ r = [(MixVal.num 0, y)] ∨ r = [(MixVal.interval, y)] := by
  unfold qBlock at h
  split at h
  · exact Sum.noConfusion h
  · split at h
    · exact Sum.noConfusion h
    · split at h
      · split at h
        · exact Sum.noConfusion h
        · split at h
          · injection h with h'
            exact ⟨optVal pv, Or.inl h'.symm⟩
          · split at h
            · injection h with h'
              exact ⟨optVal pv, Or.inr (Or.inl h'.symm)⟩
            · injection h with h'
              exact ⟨optVal pv, Or.inr (Or.inr h'.symm)⟩
      · exact Sum.noConfusion h

/-- If the first try block leaves p holding a number, that number is the
solution of Colin's indifference system. -/
theorem pBlock_inr_some (g : Game4) (x : ℚ) (h : pBlock g = Sum.inr (some x)) :
    a2c g ≠ 0 ∧ x = b2c g / a2c g := by
  by_cases ha : a2c g = 0
  · simp [pBlock, solve1, ha] at h
  · refine ⟨ha, ?_⟩
    simp only [pBlock, solve1, if_neg ha] at h
    split at h
    · injection h with h'
      injection h' with h''
      exact h''.symm
    · split at h
      · split at h
        · injection h with h'
          exact Option.noConfusion h'
        · split at h
          · exact Sum.noConfusion h
          · split at h
            · exact Sum.noConfusion h
            · exact Sum.noConfusion h
      · injection h with h'
        exact Option.noConfusion h'

/-- If the second try block leaves q holding a number, that number is the
solution of Rowena's indifference system. -/
theorem qBlock_inr_some (g : Game4) (pv : Option ℚ) (y : ℚ)
    (h : qBlock g pv = Sum.inr (some y)) :
    a1c g ≠ 0 ∧ y = b1c g / a1c g := by
  by_cases ha : a1c g = 0
  · simp [qBlock, solve1, ha] at h
  · refine ⟨ha, ?_⟩
    simp only [qBlock, solve1, if_neg ha] at h
    split at h
    · injection h with h'
      injection h' with h''
      exact h''.symm
    · split at h
      · split at h
        · injection h with h'
          exact Option.noConfusion h'
        · split at h
          · exact Sum.noConfusion h
          · split at h
            · exact Sum.noConfusion h
            · exact Sum.noConfusion h
      · injection h with h'
        exact Option.noConfusion h'

/-- Colin's indifference difference is linear in p with the system's
coefficient and right-hand side. -/
theorem colDiff_eq (g : Game4) (x : ℚ) : colDiff g x = x * a2c g - b2c g := by
  unfold colDiff a2c b2c
  ring

/-- Rowena's indifference difference is linear in q with the system's
coefficient and right-hand side. -/
theorem rowDiff_eq (g : Game4) (x : ℚ) : rowDiff g x = x * a1c g - b1c g := by
  unfold rowDiff a1c b1c
  ring

/-- C8: when mixed_NE returns a single numeric pair (p, q) with both values
strictly inside (0,1), plugging the pair back in makes each player exactly
indifferent: Colin's Left-Right expected-utility difference under p and
Rowena's Top-Bottom difference under q are both exactly 0 (the embedding
is over exact rationals, so the floating tolerance is met exactly). -/
theorem mixedNE_interior_pair_indifferent (g : Game4) (p q : ℚ)
    (h : mixed_NE g = [(MixVal.num p, MixVal.num q)])
    (hp0 : 0 < p) (hp1 : p < 1) (hq0 : 0 < q) (hq1 : q < 1) :
    colDiff g p = 0 ∧ rowDiff g q = 0 := by
  unfold mixed_NE at h
  split at h
  · rename_i r hpb
    obtain ⟨x, hx⟩ := pBlock_inl_shape g r hpb
    rw [hx] at h
    simp at h
    exact absurd h.2.symm hq0.ne'
  · rename_i pv hpb
    split at h
    · rename_i r hqb
      obtain ⟨y, hy⟩ := qBlock_inl_shape g pv r hqb
      rcases hy with hy | hy | hy
      · rw [hy] at h
        simp at h
        exact absurd h.1.symm hp1.ne
      · rw [hy] at h
        simp at h
        exact absurd h.1.symm hp0.ne'
      · rw [hy] at h
        simp at h
    · rename_i qv hqb
      split at h
      · split at h
        · split at h
          · rename_i sr sc hsr hsc
            simp at h
            rcases dom_strat_cases g Player.R sr hsr with h1 | h1 <;> rw [h1] at h <;>
              norm_num at h
            · exact absurd h.1.symm hp1.ne
            · exact absurd h.1.symm hp0.ne'
          · simp at h
          · simp at h
          · simp at h
        · simp at h
      · split at h
        · simp at h
        · rename_i hpf hqf
          simp at h
          cases pv with
          | none => exact absurd rfl hpf
          | some p0 =>
            cases qv with
            | none => exact absurd rfl hqf
            | some q0 =>
              simp at h
              obtain ⟨ha2, hp'⟩ := pBlock_inr_some g p0 hpb
              obtain ⟨ha1, hq'⟩ := qBlock_inr_some g (some p0) q0 hqb
              rw [← h.1, hp', ← h.2, hq', colDiff_eq, rowDiff_eq]
              constructor <;> field_simp

/-- C8 witness: matching pennies returns (1/2, 1/2) and both indifference
differences vanish there. -/
theorem mixedNE_interior_pair_indifferent_app :
    colDiff mpGame (1/2) = 0 ∧ rowDiff mpGame (1/2) = 0 :=
  mixedNE_interior_pair_indifferent mpGame (1/2) (1/2)
    (by norm_num [mixed_NE, pBlock, qBlock, solve1, a2c, b2c, a1c, b1c, u1, u2, dom_strat,
      pyFalsy, mpGame])
    (by norm_num) (by norm_num) (by norm_num) (by norm_num)

/-- getLastD of a nonempty list is its getLast. -/
theorem getLastD_eq_getLast (l : List ℚ) (d : ℚ) (h : l ≠ []) :
    l.getLastD d = l.getLast h := by
  rw [List.getLastD_eq_getLast?, List.getLast?_eq_getLast l h]
  rfl

/-- Splitting a nonempty list's last element back out of a two-element
tail. -/
theorem concat_last_pair (l : List ℚ) (e : ℚ) (h : l ≠ []) :
    l.dropLast ++ [l.getLastD 0, e] = l ++ [e] := by
  rw [getLastD_eq_getLast l 0 h,
    show [l.getLast h, e] = [l.getLast h] ++ [e] from rfl,
    ← List.append_assoc, List.dropLast_append_getLast h]

/-- The loop invariant of fict_play: from any state with nonempty
trajectories of length i+1, a successful run ends in trajectories of
length at least 3 whose two last entries differ by less than eps. -/
theorem fpLoop_converged (g : Game4) : ∀ (n : ℕ) (st : FPState) (tr tc : List ℚ),
    st.sR ≠ [] → st.sC ≠ [] → st.sR.length = st.i + 1 → st.sC.length = st.i + 1 →
    fpLoop g n st = some (tr, tc) →
    3 ≤ tr.length ∧ 3 ≤ tc.length ∧
    (∃ l x y, tr = l ++ [x, y] ∧ |x - y| < fpEps) ∧
    (∃ l x y, tc = l ++ [x, y] ∧ |x - y| < fpEps) := by
  intro n
  induction n with
  | zero =>
    intro st tr tc _ _ _ _ h
    exact Option.noConfusion h
  | succ n ih =>
    intro st tr tc hR hC hlR hlC h
    rw [fpLoop] at h
    split at h
    · rename_i hcond
      obtain ⟨hi, hdr, hdc⟩ := hcond
      injection h with h'
      have htr : tr = st.sR ++ [emp_strat st.hR] := congrArg Prod.fst h'.symm
      have htc : tc = st.sC ++ [emp_strat st.hC] := congrArg Prod.snd h'.symm
      refine ⟨?_, ?_, ?_, ?_⟩
      · rw [htr]
        simp [hlR]
        omega
      · rw [htc]
        simp [hlC]
        omega
      · exact ⟨st.sR.dropLast, st.sR.getLastD 0, emp_strat st.hR,
          by rw [htr, concat_last_pair st.sR (emp_strat st.hR) hR], hdr⟩
      · exact ⟨st.sC.dropLast, st.sC.getLastD 0, emp_strat st.hC,
          by rw [htc, concat_last_pair st.sC (emp_strat st.hC) hC], hdc⟩
    · exact ih _ tr tc (by simp) (by simp) (by simp [hlR]) (by simp [hlC]) h

/-- C9: whenever fict_play terminates it does so through the convergence
test: both returned trajectories end in two entries less than 1e-4 apart,
and both have length at least 3 (the round-0 entry plus at least two loop
iterations, because the test requires i > 0). -/
theorem fict_play_terminates_converged (g : Game4) (n : ℕ) (tr tc : List ℚ)
    (h : fict_play g n = some (tr, tc)) :
    3 ≤ tr.length ∧ 3 ≤ tc.length ∧
    (∃ l x y, tr = l ++ [x, y] ∧ |x - y| < fpEps) ∧
    (∃ l x y, tc = l ++ [x, y] ∧ |x - y| < fpEps) :=
  fpLoop_converged g n fpInit tr tc (by simp [fpInit]) (by simp [fpInit])
    (by simp [fpInit]) (by simp [fpInit]) h

/-- On the both-dominant game gConv, fictitious play converges at the
second loop iteration with trajectories [1, 1, 1]. -/
theorem fict_play_gConv_eval : fict_play gConv 3 = some ([1, 1, 1], [1, 1, 1]) := by
  norm_num [fict_play, fpLoop, fpInit, emp_strat, best_response, brIdx, pyRound, argmax2,
    u1, u2, gConv, fpEps, List.getLastD]

/-- C9 witness: the converged run on gConv. -/
theorem fict_play_terminates_converged_app :
    3 ≤ ([1, 1, 1] : List ℚ).length ∧ 3 ≤ ([1, 1, 1] : List ℚ).length ∧
    (∃ l x y, ([1, 1, 1] : List ℚ) = l ++ [x, y] ∧ |x - y| < fpEps) ∧
    (∃ l x y, ([1, 1, 1] : List ℚ) = l ++ [x, y] ∧ |x - y| < fpEps) :=
  fict_play_terminates_converged gConv 3 [1, 1, 1] [1, 1, 1] fict_play_gConv_eval

/-- Python round sends every s in [0, 1/2] to 0 (banker's rounding sends
exactly 1/2 to the even integer 0). -/
theorem pyRound_low (s : ℚ) (h0 : 0 ≤ s) (h1 : s ≤ 1/2) : pyRound s = 0 := by
  have hf : ⌊s⌋ = 0 := by
    rw [Int.floor_eq_zero_iff]
    exact ⟨h0, lt_of_le_of_lt h1 (by norm_num)⟩
  unfold pyRound
  rw [hf]
  rcases lt_or_eq_of_le h1 with hlt | heq
  · rw [if_pos (by push_cast; linarith)]
  · rw [heq]
    norm_num

/-- Python round sends every s in (1/2, 1] to 1. -/
theorem pyRound_high (s : ℚ) (h0 : 1/2 < s) (h1 : s ≤ 1) : pyRound s = 1 := by
  rcases lt_or_eq_of_le h1 with hlt | heq
  · have hf : ⌊s⌋ = 0 := by
      rw [Int.floor_eq_zero_iff]
      exact ⟨by linarith, hlt⟩
    unfold pyRound
    rw [hf]
    rw [if_neg (by push_cast; linarith), if_pos (by push_cast; linarith)]
    norm_num
  · rw [heq]
    norm_num [pyRound]

/-- C10: best_response depends on the opponent's empirical strategy only
through whether it exceeds 1/2 — two strategies on the same side of the
threshold (both in [0,1/2] or both in (1/2,1]) give the identical action. -/
theorem best_response_half_interval_noninterference (g : Game4) (p : Player) (s1 s2 : ℚ)
    (h : (0 ≤ s1 ∧ s1 ≤ 1/2 ∧ 0 ≤ s2 ∧ s2 ≤ 1/2) ∨
      (1/2 < s1 ∧ s1 ≤ 1 ∧ 1/2 < s2 ∧ s2 ≤ 1)) :
    best_response g p s1 = best_response g p s2 := by
  have hr : pyRound s1 = pyRound s2 := by
    rcases h with ⟨a, b, c, d⟩ | ⟨a, b, c, d⟩
    · rw [pyRound_low s1 a b, pyRound_low s2 c d]
    · rw [pyRound_high s1 a b, pyRound_high s2 c d]
  have hb : brIdx s1 = brIdx s2 := by
    unfold brIdx
    rw [hr]
  cases p <;> simp [best_response, hb]

/-- C10 witness: 0 and 1/2 lie in the same half-interval, so Colin's best
responses coincide. -/
theorem best_response_half_interval_noninterference_app :
    best_response zeroGame Player.C 0 = best_response zeroGame Player.C (1/2) :=
  best_response_half_interval_noninterference zeroGame Player.C 0 (1/2)
    (Or.inl (by norm_num))

end GameTheory

